import Mathlib

/-!
Verification of the MusicRecognition fingerprinting and matching core.

The definitions below are a shallow embedding of the Go sources of the
repository (package `core`: `spectrogram.go`, `fingerprinting.go`,
`shazoom.go`).  Conventions used throughout:

* `float64` values are modelled as rationals (`ℚ`); all quantities the
  claims talk about (group means, band maxima, thresholds, packed hash
  fields) are exact in this model.
* `uint32` values are modelled as `Nat` with explicit `% 2 ^ 32`
  wraparound where the code relies on 32-bit semantics, and `int32`
  values as `Int` wrapped into the signed 32-bit range by `wrap32`.
  Go `int32` division truncates toward zero, which is `Int.tdiv`.
* Go maps are modelled as association lists whose key order is the
  insertion order; the nondeterministic iteration order of a Go map is
  made explicit as a permutation parameter wherever the surrounding code
  observes it.
* fallible functions return `Except String` mirroring the `error`
  results and messages of the source.
-/

set_option maxHeartbeats 1000000

set_option maxRecDepth 20000

set_option allowUnsafeReducibility true

attribute [semireducible] Rat.add Rat.sub Rat.mul Rat.div Rat.inv Rat.neg

namespace Shz

/-- Wrap an integer into the signed 32-bit range, as Go `int32` arithmetic does. -/
def wrap32 (z : Int) : Int := (z + 2 ^ 31) % 2 ^ 32 - 2 ^ 31

/-- Reinterpret a `uint32` value (a `Nat`) as Go `int32(x)` does. -/
def toInt32 (n : Nat) : Int := wrap32 (n : Int)

/-- From `analyzeRelativeTiming` (shazoom.go): for a hit pair the code computes
`difference := int32(dbTime) - int32(sampleTime)` in `int32` arithmetic and then
`differenceVariance := difference / 100` with Go signed division (truncation
toward zero, `Int.tdiv`). -/
def diffKey (sampleTime dbTime : Nat) : Int :=
  Int.tdiv (wrap32 (toInt32 dbTime - toInt32 sampleTime)) 100

/-- One step of building `differenceCounts` (shazoom.go): the Go map increment
`differenceCounts[k]++`, on an association list. -/
def bumpCount : List (Int × Nat) → Int → List (Int × Nat)
  | [], k => [(k, 1)]
  | kc :: rest, k =>
    if kc.1 = k then (kc.1, kc.2 + 1) :: rest else kc :: bumpCount rest k

/-- The `differenceCounts` histogram of `analyzeRelativeTiming` for one song:
for every hit pair, bump the 100 ms bin of its time delta. -/
def histogram (times : List (Nat × Nat)) : List (Int × Nat) :=
  times.foldl (fun acc p => bumpCount acc (diffKey p.1 p.2)) []

/-- The per-song score of `analyzeRelativeTiming`: the maximal count in the
`differenceCounts` histogram (`maxCount`, starting from 0). -/
def songScore (times : List (Nat × Nat)) : Nat :=
  (histogram times).foldl (fun mx kc => max mx kc.2) 0

/-- `analyzeRelativeTiming` (shazoom.go lines 125-153): map every song's hit
pair list to its histogram-peak score.  The Go score is `float64(maxCount)`;
since `maxCount` is a nonnegative integer the `Nat` value is exact. -/
def analyzeRelativeTiming (songHits : List (Nat × List (Nat × Nat))) : List (Nat × Nat) :=
  songHits.map (fun sl => (sl.1, songScore sl.2))

/-- Modelled from the spec for comparison with `songScore`: the number of hit
pairs falling in the same 100 ms bin as the pair `p`. -/
def classSize (times : List (Nat × Nat)) (p : Nat × Nat) : Nat :=
  times.countP (fun q => diffKey q.1 q.2 == diffKey p.1 p.2)

/-- Modelled from the spec for comparison with `songScore`: the population of
the largest equivalence class of hit pairs under `diffKey`. -/
def largestClassSize (times : List (Nat × Nat)) : Nat :=
  (times.map (classSize times)).foldr max 0

/-- Maximum of a list of naturals with default 0. -/
def fmax (l : List Nat) : Nat := l.foldr max 0

theorem le_fmax {l : List Nat} {x : Nat} : x ∈ l → x ≤ fmax l := by
  induction l with
  | nil => intro h; cases h
  | cons a t ih =>
    intro h
    rcases List.mem_cons.mp h with h1 | h2
    · subst h1; exact Nat.le_max_left _ _
    · exact le_trans (ih h2) (Nat.le_max_right _ _)

theorem fmax_le {l : List Nat} {m : Nat} : (∀ x ∈ l, x ≤ m) → fmax l ≤ m := by
  induction l with
  | nil => intro _; exact Nat.zero_le m
  | cons a t ih =>
    intro h
    have h1 : a ≤ m := h a (List.mem_cons_self a t)
    have h2 : fmax t ≤ m := ih (fun x hx => h x (List.mem_cons_of_mem a hx))
    exact max_le h1 h2

theorem foldl_max_aux (l : List (Int × Nat)) (a : Nat) :
    l.foldl (fun mx kc => max mx kc.2) a = max a (fmax (l.map (fun kc => kc.2))) := by
  induction l generalizing a with
  | nil => simp [fmax]
  | cons kc t ih =>
    rw [List.foldl_cons, ih, List.map_cons]
    have hstep : fmax (kc.2 :: t.map (fun kc => kc.2)) =
        max kc.2 (fmax (t.map (fun kc => kc.2))) := rfl
    rw [hstep, Nat.max_assoc]

/-- Value stored for key `k` in an association list, 0 when absent. -/
def lookCount : List (Int × Nat) → Int → Nat
  | [], _ => 0
  | kc :: rest, k => if kc.1 = k then kc.2 else lookCount rest k

theorem lookCount_bumpCount (l : List (Int × Nat)) (k0 k : Int) :
    lookCount (bumpCount l k0) k =
      if k = k0 then lookCount l k + 1 else lookCount l k := by
  induction l with
  | nil =>
    simp only [bumpCount, lookCount]
    by_cases h : k = k0
    · subst h; simp
    · rw [if_neg (fun hh => h hh.symm), if_neg h]
  | cons kc t ih =>
    simp only [bumpCount]
    by_cases h1 : kc.1 = k0
    · rw [if_pos h1]
      by_cases h2 : k = k0
      · have hk : kc.1 = k := by rw [h1, h2]
        simp [lookCount, hk, h2]
      · have hk : ¬ kc.1 = k := by rw [h1]; exact fun hh => h2 hh.symm
        simp [lookCount, hk, h2]
    · rw [if_neg h1]
      by_cases h2 : kc.1 = k
      · have hk0 : ¬ k = k0 := by rw [← h2]; exact h1
        simp [lookCount, h2, hk0]
      · simp [lookCount, h2, ih]

theorem lookCount_foldl_bump (ks : List Int) (acc : List (Int × Nat)) (k : Int) :
    lookCount (ks.foldl bumpCount acc) k = lookCount acc k + ks.count k := by
  induction ks generalizing acc with
  | nil => simp
  | cons k0 t ih =>
    simp only [List.foldl_cons, ih, lookCount_bumpCount, List.count_cons]
    by_cases h : k = k0
    · subst h
      simp
      omega
    · have h2 : (k0 == k) = false := by
        simp only [beq_eq_false_iff_ne]
        exact fun hh => h hh.symm
      simp [h, h2]

theorem mem_bumpCount {l : List (Int × Nat)} {k : Int} {kc : Int × Nat} :
    kc ∈ bumpCount l k → kc.1 = k ∨ kc.1 ∈ l.map (fun e => e.1) := by
  induction l with
  | nil =>
    intro h
    simp only [bumpCount, List.mem_singleton] at h
    left; rw [h]
  | cons e t ih =>
    intro h
    simp only [bumpCount] at h
    by_cases he : e.1 = k
    · rw [if_pos he] at h
      rcases List.mem_cons.mp h with h1 | h1
      · left; rw [h1]; exact he
      · right
        simp only [List.map_cons]
        exact List.mem_cons_of_mem _ (List.mem_map.mpr ⟨kc, h1, rfl⟩)
    · rw [if_neg he] at h
      rcases List.mem_cons.mp h with h1 | h1
      · right; simp only [List.map_cons]; rw [h1]; exact List.mem_cons_self _ _
      · rcases ih h1 with h2 | h2
        · left; exact h2
        · right; simp only [List.map_cons]; exact List.mem_cons_of_mem _ h2

theorem mem_foldl_bump {ks : List Int} {acc : List (Int × Nat)} {kc : Int × Nat} :
    kc ∈ ks.foldl bumpCount acc → kc.1 ∈ ks ∨ kc.1 ∈ acc.map (fun e => e.1) := by
  induction ks generalizing acc with
  | nil => intro h; right; exact List.mem_map.mpr ⟨kc, h, rfl⟩
  | cons k0 t ih =>
    intro h
    simp only [List.foldl_cons] at h
    rcases ih h with h1 | h1
    · left; exact List.mem_cons_of_mem k0 h1
    · simp only [List.mem_map] at h1
      obtain ⟨e, he, hk⟩ := h1
      rcases mem_bumpCount he with h2 | h2
      · left; rw [← hk, h2]; exact List.mem_cons_self k0 t
      · right; rw [← hk]; exact h2

theorem lookCount_pos_mem {l : List (Int × Nat)} {k : Int} :
    0 < lookCount l k → (k, lookCount l k) ∈ l := by
  induction l with
  | nil => intro h; simp [lookCount] at h
  | cons kc t ih =>
    intro h
    by_cases he : kc.1 = k
    · have hl : lookCount (kc :: t) k = kc.2 := by simp [lookCount, he]
      rw [hl]
      have hkc : (k, kc.2) = kc := by
        rcases kc with ⟨a, b⟩
        simp only at he
        rw [he]
      rw [hkc]
      exact List.mem_cons_self _ _
    · have hl : lookCount (kc :: t) k = lookCount t k := by simp [lookCount, he]
      rw [hl] at h ⊢
      exact List.mem_cons_of_mem _ (ih h)

theorem keys_bumpCount (l : List (Int × Nat)) (k : Int) :
    (bumpCount l k).map (fun e => e.1) = l.map (fun e => e.1) ∨
    (bumpCount l k).map (fun e => e.1) = l.map (fun e => e.1) ++ [k] := by
  induction l with
  | nil => right; simp [bumpCount]
  | cons e t ih =>
    by_cases he : e.1 = k
    · left; simp [bumpCount, he]
    · rcases ih with h | h
      · left; simp [bumpCount, he, h]
      · right; simp [bumpCount, he, h]

theorem nodup_keys_bumpCount {l : List (Int × Nat)} (k : Int) :
    (l.map (fun e => e.1)).Nodup → ((bumpCount l k).map (fun e => e.1)).Nodup := by
  induction l with
  | nil => intro _; simp [bumpCount]
  | cons e t ih =>
    intro h
    by_cases he : e.1 = k
    · simpa [bumpCount, he] using h
    · simp only [List.map_cons, List.nodup_cons] at h
      have ht := ih h.2
      simp only [bumpCount, if_neg he, List.map_cons, List.nodup_cons]
      refine ⟨?_, ht⟩
      intro hmem
      rcases keys_bumpCount t k with hk | hk
      · rw [hk] at hmem; exact h.1 hmem
      · rw [hk] at hmem
        rcases List.mem_append.mp hmem with hm | hm
        · exact h.1 hm
        · simp only [List.mem_singleton] at hm
          exact he hm

theorem nodup_keys_foldl_bump (ks : List Int) (acc : List (Int × Nat)) :
    (acc.map (fun e => e.1)).Nodup →
    ((ks.foldl bumpCount acc).map (fun e => e.1)).Nodup := by
  induction ks generalizing acc with
  | nil => intro h; simpa using h
  | cons k0 t ih =>
    intro h
    exact ih (bumpCount acc k0) (nodup_keys_bumpCount k0 h)

theorem entry_eq_lookCount {l : List (Int × Nat)} {k : Int} {c : Nat} :
    (l.map (fun e => e.1)).Nodup → (k, c) ∈ l → lookCount l k = c := by
  induction l with
  | nil => intro _ h; cases h
  | cons e t ih =>
    intro hnd h
    simp only [List.map_cons, List.nodup_cons] at hnd
    rcases List.mem_cons.mp h with h1 | h1
    · rw [← h1]; simp [lookCount]
    · have hke : ¬ e.1 = k := by
        intro hek
        exact hnd.1 (by
          rw [hek]
          exact List.mem_map.mpr ⟨(k, c), h1, rfl⟩)
      simp only [lookCount, if_neg hke]
      exact ih hnd.2 h1

theorem hist_fmax (ks : List Int) :
    fmax ((ks.foldl bumpCount []).map (fun kc => kc.2)) =
      fmax (ks.map (fun k => ks.count k)) := by
  apply Nat.le_antisymm
  · apply fmax_le
    intro c hc
    obtain ⟨kc, hkc, rfl⟩ := List.mem_map.mp hc
    have hkey : kc.1 ∈ ks := by
      rcases mem_foldl_bump hkc with h | h
      · exact h
      · simp at h
    have hnd := nodup_keys_foldl_bump ks [] (by simp)
    have hlook : lookCount (ks.foldl bumpCount []) kc.1 = kc.2 :=
      entry_eq_lookCount hnd (by rcases kc with ⟨a, b⟩; exact hkc)
    have hcount : kc.2 = ks.count kc.1 := by
      have hh := lookCount_foldl_bump ks [] kc.1
      rw [hlook] at hh
      simpa [lookCount] using hh
    rw [hcount]
    exact le_fmax (List.mem_map.mpr ⟨kc.1, hkey, rfl⟩)
  · apply fmax_le
    intro c hc
    obtain ⟨k, hk, rfl⟩ := List.mem_map.mp hc
    have hlook : lookCount (ks.foldl bumpCount []) k = ks.count k := by
      have hh := lookCount_foldl_bump ks [] k
      simpa [lookCount] using hh
    have hpos : 0 < ks.count k := List.count_pos_iff.mpr hk
    have hmem : (k, ks.count k) ∈ ks.foldl bumpCount [] := by
      have hm := lookCount_pos_mem (l := ks.foldl bumpCount []) (k := k)
        (by rw [hlook]; exact hpos)
      rwa [hlook] at hm
    exact le_fmax (List.mem_map.mpr ⟨(k, ks.count k), hmem, rfl⟩)

theorem classSize_eq_count (times : List (Nat × Nat)) (p : Nat × Nat) :
    classSize times p =
      (times.map (fun q => diffKey q.1 q.2)).count (diffKey p.1 p.2) := by
  rw [List.count_eq_countP, List.countP_map]
  rfl

theorem songScore_eq_largestClassSize (times : List (Nat × Nat)) :
    songScore times = largestClassSize times := by
  have h1 : songScore times =
      fmax (((times.map (fun p => diffKey p.1 p.2)).foldl bumpCount []).map
        (fun kc => kc.2)) := by
    unfold songScore histogram
    rw [foldl_max_aux, List.foldl_map]
    exact Nat.zero_max _
  have h2 : largestClassSize times =
      fmax ((times.map (fun p => diffKey p.1 p.2)).map
        (fun k => (times.map (fun p => diffKey p.1 p.2)).count k)) := by
    show fmax (times.map (classSize times)) = _
    congr 1
    rw [List.map_map]
    apply List.map_congr_left
    intro p _
    exact classSize_eq_count times p
  rw [h1, h2, hist_fmax]

/-! ### The matcher (shazoom.go `FindMatchesUsingFingerPrints`) -/

/-- models.Couple: the value stored alongside an address in the store. -/
structure Couple where
  anchorTime : Nat
  songId : Nat
  deriving DecidableEq

/-- The song record returned by `db.GetSongByID`. -/
structure SongRec where
  title : String
  artist : String
  ytID : String
  deriving DecidableEq

/-- core.Match (shazoom.go lines 11-18).  `Score` is `float64(maxCount)` in Go;
`maxCount` is a nonnegative integer, so a `Nat` score is exact and the Go
float comparison agrees with the `Nat` comparison. -/
structure Match where
  songId : Nat
  songTitle : String
  songArtist : String
  youtubeID : String
  timestamp : Nat
  score : Nat
  deriving DecidableEq

/-- Go map read `m[k]` on a `map[uint32]uint32`, returning the zero value for a
missing key. -/
def lookupD (l : List (Nat × Nat)) (k : Nat) : Nat :=
  match l.find? (fun kv => kv.1 == k) with
  | none => 0
  | some kv => kv.2

/-- Go `matches[songId] = append(matches[songId], pair)` on an association
list keyed by song id. -/
def appendHit : List (Nat × List (Nat × Nat)) → Nat → Nat × Nat → List (Nat × List (Nat × Nat))
  | [], sid, pr => [(sid, [pr])]
  | sl :: rest, sid, pr =>
    if sl.1 = sid then (sl.1, sl.2 ++ [pr]) :: rest else sl :: appendHit rest sid pr

/-- The hit-collection loop of `FindMatchesUsingFingerPrints` (shazoom.go lines
69-88): for every address and every retrieved couple, record the pair
`(sample[address], couple.AnchorTime)` under the couple's song id.  `m` is the
`db.GetCouples` result in iteration order. -/
def collectHits (sampleMap : List (Nat × Nat)) (m : List (Nat × List Couple)) :
    List (Nat × List (Nat × Nat)) :=
  m.foldl (fun acc e =>
    e.2.foldl (fun acc2 c => appendHit acc2 c.songId (lookupD sampleMap e.1, c.anchorTime)) acc) []

/-- Go `timestamps` update (shazoom.go lines 77-79): keep the smallest anchor
time seen per song. -/
def updMin : List (Nat × Nat) → Nat → Nat → List (Nat × Nat)
  | [], sid, t => [(sid, t)]
  | kv :: rest, sid, t =>
    if kv.1 = sid then (kv.1, if t < kv.2 then t else kv.2) :: rest
    else kv :: updMin rest sid t

/-- The `timestamps` accumulation of `FindMatchesUsingFingerPrints`. -/
def collectTimestamps (m : List (Nat × List Couple)) : List (Nat × Nat) :=
  m.foldl (fun acc e => e.2.foldl (fun acc2 c => updMin acc2 c.songId c.anchorTime) acc) []

/-- `db.GetSongByID` abstracted as a lookup in a song table; `none` models
`songExists = false`. -/
def lookupSong (table : List (Nat × SongRec)) (sid : Nat) : Option SongRec :=
  match table.find? (fun kv => kv.1 == sid) with
  | none => none
  | some kv => some kv.2

/-- Assembling one `Match` record (shazoom.go line 109); `none` when the song
record is missing, in which case the matcher skips the song. -/
def matchRecord (tstamps : List (Nat × Nat)) (table : List (Nat × SongRec))
    (kc : Nat × Nat) : Option Match :=
  match lookupSong table kc.1 with
  | none => none
  | some s => some ⟨kc.1, s.title, s.artist, s.ytID, lookupD tstamps kc.1, kc.2⟩

/-- The `selectedCandidates` list (shazoom.go lines 95-111).  The Go loop
`for songId, points := range scores` visits the entries of the `scores` map in
a nondeterministic order; `order` makes that order explicit.  A song id in
`order` that is not a key of `scores` contributes nothing, so any permutation
of the key set yields exactly the map's entries. -/
def candidatesOf (scores tstamps : List (Nat × Nat)) (table : List (Nat × SongRec))
    (order : List Nat) : List Match :=
  (order.filterMap (fun sid => scores.find? (fun kc => kc.1 == sid))).filterMap
    (matchRecord tstamps table)

/-- One step of the insertion sort Go's `sort.Slice` performs on small slices,
with the comparator `less(a, b) = a.Score > b.Score` of shazoom.go lines
113-115: the new element moves left past elements of strictly smaller score. -/
def insertMatch : List Match → Match → List Match
  | [], mt => [mt]
  | x :: xs, mt => if x.score < mt.score then mt :: x :: xs else x :: insertMatch xs mt

/-- `sort.Slice(selectedCandidates, less)` modelled as insertion sort: any
result it may produce is a permutation of its input that is pairwise
non-increasing in score, which is exactly what this function produces; the
order of equal-score elements follows the (nondeterministic) input order. -/
def sortMatches (l : List Match) : List Match := l.foldl insertMatch []

/-- FindMatchesUsingFingerPrints (shazoom.go lines 43-118).  The store is
abstracted by `getCouples` (`db.GetCouples`) and `table` (`db.GetSongByID`);
`order` is the iteration order of the `scores` map. -/
def FindMatchesUsingFingerPrints (sampleMap : List (Nat × Nat))
    (getCouples : List Nat → List (Nat × List Couple))
    (table : List (Nat × SongRec)) (order : List Nat) : List Match :=
  let m := getCouples (sampleMap.map (fun kv => kv.1))
  sortMatches (candidatesOf (analyzeRelativeTiming (collectHits sampleMap m))
    (collectTimestamps m) table order)

/-- The key set of the `scores` map for a given query and store: the set of
song ids a run's iteration order permutes. -/
def scoreKeys (sampleMap : List (Nat × Nat))
    (getCouples : List Nat → List (Nat × List Couple)) : List Nat :=
  (analyzeRelativeTiming (collectHits sampleMap
    (getCouples (sampleMap.map (fun kv => kv.1))))).map (fun kc => kc.1)

/-- Modelled from the spec for C3: sorted by strictly descending score, ties
in ascending song id. -/
def specSortedC3 (l : List Match) : Prop :=
  l.Pairwise (fun a b => b.score < a.score ∨ (a.score = b.score ∧ a.songId < b.songId))

theorem insertMatch_perm (l : List Match) (mt : Match) :
    (insertMatch l mt).Perm (mt :: l) := by
  induction l with
  | nil => exact List.Perm.refl _
  | cons x xs ih =>
    by_cases h : x.score < mt.score
    · simp only [insertMatch, if_pos h]
      exact List.Perm.refl _
    · simp only [insertMatch, if_neg h]
      exact (ih.cons x).trans (List.Perm.swap mt x xs)

theorem foldl_insertMatch_perm (l acc : List Match) :
    (l.foldl insertMatch acc).Perm (acc ++ l) := by
  induction l generalizing acc with
  | nil => simp
  | cons mt t ih =>
    simp only [List.foldl_cons]
    refine (ih (insertMatch acc mt)).trans ?_
    refine (List.Perm.append_right t (insertMatch_perm acc mt)).trans ?_
    exact (List.perm_middle).symm

theorem sortMatches_perm (l : List Match) : (sortMatches l).Perm l := by
  simpa using foldl_insertMatch_perm l []

theorem mem_insertMatch {l : List Match} {mt x : Match} :
    x ∈ insertMatch l mt ↔ x = mt ∨ x ∈ l := by
  rw [(insertMatch_perm l mt).mem_iff, List.mem_cons]

theorem insertMatch_sorted {l : List Match} (mt : Match)
    (h : l.Pairwise (fun a b => b.score ≤ a.score)) :
    (insertMatch l mt).Pairwise (fun a b => b.score ≤ a.score) := by
  induction l with
  | nil => simp [insertMatch]
  | cons x xs ih =>
    rcases List.pairwise_cons.mp h with ⟨hx, hxs⟩
    by_cases hc : x.score < mt.score
    · simp only [insertMatch, if_pos hc]
      refine List.pairwise_cons.mpr ⟨?_, h⟩
      intro y hy
      rcases List.mem_cons.mp hy with h1 | h1
      · rw [h1]; exact Nat.le_of_lt hc
      · exact Nat.le_trans (hx y h1) (Nat.le_of_lt hc)
    · simp only [insertMatch, if_neg hc]
      refine List.pairwise_cons.mpr ⟨?_, ih hxs⟩
      intro y hy
      rcases mem_insertMatch.mp hy with h1 | h1
      · rw [h1]; exact Nat.le_of_not_lt hc
      · exact hx y h1

theorem foldl_insertMatch_sorted (l acc : List Match)
    (h : acc.Pairwise (fun a b => b.score ≤ a.score)) :
    (l.foldl insertMatch acc).Pairwise (fun a b => b.score ≤ a.score) := by
  induction l generalizing acc with
  | nil => exact h
  | cons mt t ih => exact ih (insertMatch acc mt) (insertMatch_sorted mt h)

theorem sortMatches_sorted (l : List Match) :
    (sortMatches l).Pairwise (fun a b => b.score ≤ a.score) := by
  exact foldl_insertMatch_sorted l [] (List.Pairwise.nil)

theorem scores_eq_of_perm_sorted {l1 l2 : List Match} (hp : l1.Perm l2)
    (h1 : l1.Pairwise (fun a b => b.score ≤ a.score))
    (h2 : l2.Pairwise (fun a b => b.score ≤ a.score)) :
    l1.map (fun mt => mt.score) = l2.map (fun mt => mt.score) := by
  haveI inst : IsAntisymm Nat (fun a b => b ≤ a) := ⟨fun a b u v => Nat.le_antisymm v u⟩
  exact @List.eq_of_perm_of_sorted Nat (fun a b => b ≤ a) inst _ _
    (hp.map (fun mt => mt.score))
    (List.pairwise_map.mpr h1) (List.pairwise_map.mpr h2)

/-! ### Signal conditioning and STFT framing (spectrogram.go) -/

/-- spectrogram.go line 11: `freqBinSize = 1024`. -/
def freqBinSize : Nat := 1024

/-- spectrogram.go line 13: `hopSize = 32`. -/
def hopSize : Nat := 32

/-- The decimation loop of `DownSample` (spectrogram.go lines 107-120): one
output per group start `i ∈ {0, r, 2r, ...}` below the input length; the code
sums `sample[j]` for `j` from 0 up to `end` (a prefix of the whole signal) and
divides by the group length `end - i`. -/
def downSampleLoop (sample : List ℚ) (r : Nat) : List ℚ :=
  (List.range ((sample.length + r - 1) / r)).map (fun k =>
    let i := k * r
    let e := min (i + r) sample.length
    ((sample.take e).foldl (fun a b => a + b) 0) / ((e - i : Nat) : ℚ))

/-- DownSample (spectrogram.go lines 95-123): validates the two rates, forms
the integer ratio, and runs the decimation loop. -/
def DownSample (sample : List ℚ) (originalSampleRate targetSampleRate : Int) :
    Except String (List ℚ) :=
  if targetSampleRate ≤ 0 ∨ originalSampleRate ≤ 0 then
    Except.error "provided sample rates must be positive"
  else if originalSampleRate < targetSampleRate then
    Except.error "target sample rate must be <= original sample rate"
  else
    Except.ok (downSampleLoop sample (Int.tdiv originalSampleRate targetSampleRate).toNat)

/-- Modelled from the spec for C6: output sample `k` is the arithmetic mean of
its own group `[k*r, min((k+1)*r, len))` of consecutive inputs. -/
def specDownSample (sample : List ℚ) (r : Nat) : List ℚ :=
  (List.range ((sample.length + r - 1) / r)).map (fun k =>
    let grp := (sample.drop (k * r)).take r
    (grp.foldl (fun a b => a + b) 0) / ((grp.length : Nat) : ℚ))

/-- `numOfWindows` (spectrogram.go line 35):
`len(downsampledSample) / (freqBinSize - hopSize)`. -/
def numOfWindows (n : Nat) : Nat := n / (freqBinSize - hopSize)

/-- The STFT framing loop of `Spectrogram` (spectrogram.go lines 45-62): frame
`i` starts at `i * hopSize`; `copy` fills the `make`-allocated 1024-sample
buffer with the available samples and the rest stays zero.  The Hamming window
multiply and the FFT transform each 1024-sample buffer pointwise and change
neither the frame count nor the frame boundaries; frames are therefore
represented by their pre-FFT sample windows, and the transform is the abstract
`fftMag` parameter of `Spectrogram`. -/
def stftFrame (xs : List ℚ) (i : Nat) : List ℚ :=
  let chunk := (xs.drop (i * hopSize)).take freqBinSize
  chunk ++ List.replicate (freqBinSize - chunk.length) (0 : ℚ)

/-- The frame list built by the loop: one `stftFrame` per window index. -/
def stftFrames (xs : List ℚ) : List (List ℚ) :=
  (List.range (numOfWindows xs.length)).map (stftFrame xs)

/-- Modelled from the spec for C1: one frame per start index `s` in
`{0, 512, 1024, ...}` with `s + 1024 ≤ n`, so
`floor((n - 1024) / 512) + 1` frames when `n ≥ 1024` and none otherwise. -/
def specFrameCount (n : Nat) : Nat := if 1024 ≤ n then (n - 1024) / 512 + 1 else 0

/-- Modelled from the spec for C1: the start indices of the spec's frames. -/
def specStarts (n : Nat) : List Nat :=
  (List.range (specFrameCount n)).map (fun i => i * 512)

/-- LowFilterPass (spectrogram.go lines 67-92): the single-pole IIR filter
`y[i] = alpha*x[i] + (1-alpha)*y[i-1]` with `y[-1] = 0`.  The smoothing factor
`alpha = dt/(rc+dt)` is built from `math.Pi` and is irrational, so it is a
parameter here; the claims settled below depend only on the filter being a
total, length-preserving map. -/
def LowFilterPass (alpha : ℚ) (sample : List ℚ) : List ℚ :=
  (sample.foldl (fun acc x =>
    let y := alpha * x + (1 - alpha) * acc.2
    (acc.1 ++ [y], y)) (([] : List ℚ), (0 : ℚ))).1

/-- Spectrogram (spectrogram.go lines 27-65): low-pass filter, downsample to
`sampleRate / downSampleRatio` with `downSampleRatio = 4`, then the windowed
STFT (`fftMag` abstracts the per-frame Hamming window and FFT). -/
def Spectrogram (fftMag : List ℚ → List ℚ) (alpha : ℚ) (sample : List ℚ)
    (sampleRate : Int) : Except String (List (List ℚ)) :=
  match DownSample (LowFilterPass alpha sample) sampleRate (Int.tdiv sampleRate 4) with
  | Except.error e => Except.error ("error occurred while down sampling: " ++ e)
  | Except.ok ds => Except.ok ((stftFrames ds).map fftMag)

/-! ### Peak extraction (spectrogram.go ExtractPeaks) -/

/-- The running per-band maximum of ExtractPeaks (the `maxFreq` struct): the
magnitude and absolute bin index of the strongest bin seen so far; the zero
value has magnitude 0 at index 0.  The complex `freq` payload is determined by
the index and is dropped. -/
structure BandMax where
  mag : ℚ
  freqIndex : Nat
  deriving DecidableEq

/-- The six fixed bands of ExtractPeaks (spectrogram.go line 143). -/
def bands : List (Nat × Nat) := [(0, 10), (10, 20), (20, 40), (40, 80), (80, 160), (160, 512)]

/-- The inner band scan (spectrogram.go lines 157-164): fold over the band's
cells, replacing the running maximum when a strictly larger magnitude shows
up. -/
def scanBand (cells : List (Nat × ℚ)) : BandMax :=
  cells.foldl (fun acc c => if acc.mag < c.2 then ⟨c.2, c.1⟩ else acc) ⟨0, 0⟩

/-- The cells of band `b` in frame `bin`: the slice `bin[b.min : b.max]` with
absolute bin indices.  A frame is represented by its per-bin magnitudes,
i.e. the `cmplx.Abs` values of the FFT bins, which are nonnegative in the
real program. -/
def bandCells (bin : List ℚ) (b : Nat × Nat) : List (Nat × ℚ) :=
  ((bin.drop b.1).take (b.2 - b.1)).enum.map (fun p => (b.1 + p.1, p.2))

/-- `binBandMax` of ExtractPeaks (lines 153-166): one running maximum per
band. -/
def binBandMax (bin : List ℚ) : List BandMax :=
  bands.map (fun b => scanBand (bandCells bin b))

/-- The frame average of ExtractPeaks (lines 175-180): `magSum / len(maxFreqs)`
where `maxFreqs` always carries one entry per band, so the divisor is 6. -/
def frameAvg (bin : List ℚ) : ℚ :=
  ((binBandMax bin).foldl (fun a v => a + v.mag) 0) / 6

/-- The per-frame emission of ExtractPeaks (lines 183-192): every band maximum
whose magnitude strictly exceeds the frame average is emitted. -/
def framePeaks (bin : List ℚ) : List BandMax :=
  (binBandMax bin).filter (fun v => decide (frameAvg bin < v.mag))

/-- Modelled from the spec for C7: discard band maxima with magnitude ≤ 0,
average over the survivors only, and emit the survivors strictly above that
average (none when no band survives). -/
def specFramePeaks (bin : List ℚ) : List BandMax :=
  let survivors := (binBandMax bin).filter (fun v => decide (0 < v.mag))
  if survivors.length = 0 then []
  else survivors.filter (fun v =>
    decide ((survivors.foldl (fun a v2 => a + v2.mag) 0) / (survivors.length : ℚ) < v.mag))

/-- core.Peak.  The Go struct stores the winning complex FFT value in `Freq`
and the hasher later consumes it as a real number (the package as committed
does not type-check there); the field is modelled as the rational magnitude of
the winning bin. -/
structure Peak where
  time : ℚ
  freq : ℚ
  deriving DecidableEq, Inhabited

/-- ExtractPeaks (spectrogram.go lines 132-196): empty for an empty
spectrogram; otherwise, for every frame, emit the band maxima strictly above
the frame average, with the code's sub-frame time offset
`freqIndices[i] * binDuration / len(bin)` added to the frame start time. -/
def ExtractPeaks (spectrogram : List (List ℚ)) (audioDuration : ℚ) : List Peak :=
  if spectrogram.length < 1 then []
  else
    let binDuration := audioDuration / (spectrogram.length : ℚ)
    spectrogram.enum.flatMap (fun be =>
      (framePeaks be.2).map (fun v =>
        let peakTimeInBin := (v.freqIndex : ℚ) * binDuration / (be.2.length : ℚ)
        { time := (be.1 : ℚ) * binDuration + peakTimeInBin, freq := v.mag }))

/-- ExtractPeaks with Go's slice bound check made explicit: `bin[b.min:b.max]`
panics when `b.max` exceeds the frame's capacity (equal to its length for the
freshly allocated frames the program builds), so the run is well-defined
exactly when every frame is at least 512 bins long — 512 being the largest
band bound. -/
def ExtractPeaksChecked (spectrogram : List (List ℚ)) (audioDuration : ℚ) :
    Option (List Peak) :=
  if spectrogram.all (fun bin => bands.all (fun b => decide (b.2 ≤ bin.length))) then
    some (ExtractPeaks spectrogram audioDuration)
  else none

/-! ### Landmark hashing (fingerprinting.go) -/

/-- fingerprinting.go line 11. -/
def maxFreqBits : Nat := 9

/-- fingerprinting.go line 12. -/
def maxDeltaBits : Nat := 14

/-- fingerprinting.go line 13: the core hasher's target zone size is 20. -/
def targetZoneSize : Nat := 20

/-- Go conversion `uint32(x)` of a nonnegative float: truncation of the real
value toward zero (floor on nonnegative inputs); conversions outside the
`uint32` range are not defined by Go and take the low 32 bits in this model. -/
def u32ofRat (q : ℚ) : Nat := (Rat.floor q).toNat % 2 ^ 32

/-- createAddress (fingerprinting.go lines 216-234): scale both frequencies by
10, truncate, keep the low 9 bits of each (the mask `& ((1<<9)-1)` is
reduction mod `2^9`), keep the low 14 bits of the millisecond delta, and pack
`(anchorFreqBits << 23) | (targetFreqBits << 14) | deltaBits`. -/
def createAddress (anchor target : Peak) : Nat :=
  let anchorFreqBin := u32ofRat (anchor.freq / 10)
  let targetFreqBin := u32ofRat (target.freq / 10)
  let deltaMsRaw := u32ofRat ((target.time - anchor.time) * 1000)
  let anchorFreqBits := anchorFreqBin % 2 ^ maxFreqBits
  let targetFreqBits := targetFreqBin % 2 ^ maxFreqBits
  let deltaBits := deltaMsRaw % 2 ^ maxDeltaBits
  (anchorFreqBits <<< 23) ||| (targetFreqBits <<< 14) ||| deltaBits

/-- The anchor/target index pairs enumerated by the Fingerprint loops
(fingerprinting.go lines 195-197): for every anchor index `i`, the targets are
the `j` with `i + 1 ≤ j`, `j < n` and `j ≤ i + targetZoneSize`, in loop
order. -/
def hashedPairs (n : Nat) : List (Nat × Nat) :=
  (List.range n).flatMap (fun i =>
    ((List.range n).filter
      (fun j => decide (i + 1 ≤ j) && decide (j ≤ i + targetZoneSize))).map (fun j => (i, j)))

/-- main/pipeline/fingerprints.go line 10: the draft pipeline hasher's target
zone size is 5. -/
def pipelineTargetZoneSize : Nat := 5

/-- Modelled from the spec for C5 (and matching the draft pipeline hasher):
the pair enumeration with target zone size 5. -/
def specPairsZ5 (n : Nat) : List (Nat × Nat) :=
  (List.range n).flatMap (fun i =>
    ((List.range n).filter
      (fun j => decide (i + 1 ≤ j) && decide (j ≤ i + pipelineTargetZoneSize))).map
      (fun j => (i, j)))

/-- Go map assignment `fingerprints[address] = couple`: replace the value of an
existing key in place, append a new key at the end. -/
def upsert : List (Nat × Couple) → Nat → Couple → List (Nat × Couple)
  | [], k, v => [(k, v)]
  | kv :: rest, k, v => if kv.1 = k then (kv.1, v) :: rest else kv :: upsert rest k v

/-- Fingerprint (fingerprinting.go lines 191-212): for every anchor/target
index pair, store `Couple{uint32(anchor.Time*1000), songID}` under the pair's
packed address, later writes overwriting earlier ones. -/
def Fingerprint (peaks : List Peak) (songID : Nat) : List (Nat × Couple) :=
  (hashedPairs peaks.length).foldl (fun acc ij =>
    let anchor := peaks.getD ij.1 default
    let target := peaks.getD ij.2 default
    upsert acc (createAddress anchor target) ⟨u32ofRat (anchor.time * 1000), songID⟩) []

/-! ### Pipeline entry points (fingerprinting.go, shazoom.go) -/

/-- GenerateFingerprintsFromSamples (fingerprinting.go lines 238-262): rejects
an empty sample vector, otherwise runs spectrogram → peaks → fingerprints with
`duration = len(samples) / sampleRate`. -/
def GenerateFingerprintsFromSamples (fftMag : List ℚ → List ℚ) (alpha : ℚ)
    (samples : List ℚ) (sampleRate : Int) (songID : Nat) :
    Except String (List (Nat × Couple)) :=
  if samples.length = 0 then Except.error "samples slice is empty"
  else
    match Spectrogram fftMag alpha samples sampleRate with
    | Except.error e => Except.error ("error creating spectrogram: " ++ e)
    | Except.ok spec =>
      Except.ok (Fingerprint
        (ExtractPeaks spec ((samples.length : ℚ) / (sampleRate : ℚ))) songID)

/-- FindMatches (shazoom.go lines 20-40): spectrogram → peaks → fingerprints →
projection to an `address → anchorTime` map → `FindMatchesUsingFingerPrints`.
There is no input validation; the only error path is the spectrogram call (the
error triple of the inner matcher call is discarded by the source, line 37).
The synthetic `utils.GenerateUniqueID()` song id does not influence the
projected query map and is fixed to 0.  The source passes `ExtractPeaks` an
extra `sampleRate` argument its definition does not take (the committed
package does not compile); the defined two-argument `ExtractPeaks` is used. -/
def FindMatches (fftMag : List ℚ → List ℚ) (alpha : ℚ) (audioSample : List ℚ)
    (audioDuration : ℚ) (sampleRate : Int)
    (getCouples : List Nat → List (Nat × List Couple))
    (table : List (Nat × SongRec)) (order : List Nat) :
    Except String (List Match) :=
  match Spectrogram fftMag alpha audioSample sampleRate with
  | Except.error e =>
    Except.error ("failed to generate spectrogram for samples: " ++ e)
  | Except.ok spec =>
    let fp := Fingerprint (ExtractPeaks spec audioDuration) 0
    let sampleMap := fp.map (fun kv => (kv.1, kv.2.anchorTime))
    Except.ok (FindMatchesUsingFingerPrints sampleMap getCouples table order)

/-! ### Concrete fixtures and auxiliary lemmas -/

/-- A two-song table used to exercise the matcher's tie behaviour. -/
def exTable : List (Nat × SongRec) := [(1, ⟨"A", "aa", "y1"⟩), (2, ⟨"B", "bb", "y2"⟩)]

/-- A store with one couple for song 1 at address 100 and one couple for song 2
at address 200; it returns exactly the queried addresses. -/
def exGetCouples (addrs : List Nat) : List (Nat × List Couple) :=
  addrs.filterMap (fun a =>
    if a = 100 then some (100, [⟨50, 1⟩])
    else if a = 200 then some (200, [⟨60, 2⟩]) else none)

/-- A query holding both addresses, so each song scores exactly 1. -/
def exSampleMap : List (Nat × Nat) := [(100, 0), (200, 0)]

/-- A 512-bin frame with a single live bin: magnitude 4 at bin 0. -/
def exBin : List ℚ := 4 :: List.replicate 511 (0 : ℚ)

theorem scanBand_zero (cells : List (Nat × ℚ)) (h : ∀ c ∈ cells, c.2 = 0) :
    scanBand cells = ⟨0, 0⟩ := by
  unfold scanBand
  induction cells with
  | nil => rfl
  | cons c rest ih =>
    rw [List.foldl_cons]
    have hc : c.2 = 0 := h c (List.mem_cons_self c rest)
    have hstep : (if (⟨0, 0⟩ : BandMax).mag < c.2 then (⟨c.2, c.1⟩ : BandMax) else ⟨0, 0⟩) =
        (⟨0, 0⟩ : BandMax) := by
      rw [hc]
      exact if_neg (lt_irrefl 0)
    rw [hstep]
    exact ih (fun c2 hc2 => h c2 (List.mem_cons_of_mem c hc2))

theorem cells_replicate_zero (m base : Nat) :
    ∀ c ∈ (List.replicate m (0 : ℚ)).enum.map (fun p => (base + p.1, p.2)), c.2 = 0 := by
  intro c hc
  obtain ⟨p, hp, rfl⟩ := List.mem_map.mp hc
  have h2 : (List.replicate m (0 : ℚ)).get? p.1 = some p.2 := List.mem_enum_iff_get?.mp hp
  exact List.eq_of_mem_replicate (List.get?_mem h2)

theorem bandCells_exBin_last :
    bandCells exBin (160, 512) =
      (List.replicate 352 (0 : ℚ)).enum.map (fun p => (160 + p.1, p.2)) := by
  have h1 : exBin.drop 160 = List.replicate 352 (0 : ℚ) := by
    show (4 :: List.replicate 511 (0 : ℚ)).drop (159 + 1) = _
    rw [List.drop_succ_cons, List.drop_replicate]
  unfold bandCells
  rw [h1]
  norm_num

theorem binBandMax_exBin :
    binBandMax exBin = [⟨4, 0⟩, ⟨0, 0⟩, ⟨0, 0⟩, ⟨0, 0⟩, ⟨0, 0⟩, ⟨0, 0⟩] := by
  have hb1 : scanBand (bandCells exBin (0, 10)) = ⟨4, 0⟩ := by decide
  have hb2 : scanBand (bandCells exBin (10, 20)) = ⟨0, 0⟩ := by decide
  have hb3 : scanBand (bandCells exBin (20, 40)) = ⟨0, 0⟩ := by decide
  have hb4 : scanBand (bandCells exBin (40, 80)) = ⟨0, 0⟩ := by decide
  have hb5 : scanBand (bandCells exBin (80, 160)) = ⟨0, 0⟩ := by decide
  have hb6 : scanBand (bandCells exBin (160, 512)) = ⟨0, 0⟩ := by
    rw [bandCells_exBin_last]
    exact scanBand_zero _ (cells_replicate_zero 352 160)
  unfold binBandMax bands
  simp only [List.map_cons, List.map_nil, hb1, hb2, hb3, hb4, hb5, hb6]

theorem frameAvg_exBin : frameAvg exBin = 2 / 3 := by
  unfold frameAvg
  rw [binBandMax_exBin]
  decide

theorem framePeaks_exBin : framePeaks exBin = [⟨4, 0⟩] := by
  unfold framePeaks
  rw [binBandMax_exBin, frameAvg_exBin]
  decide

theorem specFramePeaks_exBin : specFramePeaks exBin = [] := by
  unfold specFramePeaks
  rw [binBandMax_exBin]
  decide

theorem scanBand_mag_nonneg (cells : List (Nat × ℚ)) : 0 ≤ (scanBand cells).mag := by
  unfold scanBand
  suffices h : ∀ acc : BandMax, 0 ≤ acc.mag →
      0 ≤ (cells.foldl (fun acc c => if acc.mag < c.2 then ⟨c.2, c.1⟩ else acc) acc).mag by
    exact h ⟨0, 0⟩ (le_refl 0)
  induction cells with
  | nil => intro acc hacc; exact hacc
  | cons c rest ih =>
    intro acc hacc
    rw [List.foldl_cons]
    by_cases hc : acc.mag < c.2
    · rw [if_pos hc]
      exact ih ⟨c.2, c.1⟩ (le_of_lt (lt_of_le_of_lt hacc hc))
    · rw [if_neg hc]
      exact ih acc hacc

theorem frameAvg_nonneg (bin : List ℚ) : 0 ≤ frameAvg bin := by
  unfold frameAvg
  apply div_nonneg _ (by norm_num)
  suffices h : ∀ (l : List BandMax) (a : ℚ), 0 ≤ a → (∀ v ∈ l, 0 ≤ v.mag) →
      0 ≤ l.foldl (fun a v => a + v.mag) a by
    apply h _ 0 (le_refl 0)
    intro v hv
    obtain ⟨b, _, rfl⟩ := List.mem_map.mp hv
    exact scanBand_mag_nonneg _
  intro l
  induction l with
  | nil => intro a ha _; exact ha
  | cons v rest ih =>
    intro a ha hl
    rw [List.foldl_cons]
    exact ih _ (add_nonneg ha (hl v (List.mem_cons_self v rest)))
      (fun w hw => hl w (List.mem_cons_of_mem v hw))

theorem downSampleLoop_nil (r : Nat) : downSampleLoop [] r = [] := by
  unfold downSampleLoop
  have h : (([] : List ℚ).length + r - 1) / r = 0 := by
    rcases Nat.eq_zero_or_pos r with hr | hr
    · subst hr; simp
    · simp only [List.length_nil, Nat.zero_add]
      exact Nat.div_eq_of_lt (by omega)
  rw [h]
  rfl

theorem spectrogram_empty (fftMag : List ℚ → List ℚ) (alpha : ℚ) (rate : Int)
    (h4 : 4 ≤ rate) : Spectrogram fftMag alpha [] rate = Except.ok [] := by
  obtain ⟨n, rfl⟩ := Int.eq_ofNat_of_zero_le (by omega : (0 : Int) ≤ rate)
  have hn : 4 ≤ n := by exact_mod_cast h4
  have htd : Int.tdiv (n : Int) 4 = ((n / 4 : Nat) : Int) := rfl
  have hlow : LowFilterPass alpha [] = [] := rfl
  unfold Spectrogram DownSample
  rw [hlow, htd]
  have hq : 1 ≤ n / 4 := (Nat.one_le_div_iff (by norm_num)).mpr hn
  have h1 : ¬ (((n / 4 : Nat) : Int) ≤ 0 ∨ (n : Int) ≤ 0) := by
    push_neg
    constructor
    · exact_mod_cast hq
    · exact_mod_cast Nat.lt_of_lt_of_le (by norm_num) hn
  rw [if_neg h1]
  have h2 : ¬ ((n : Int) < ((n / 4 : Nat) : Int)) := by
    have hle : n / 4 ≤ n := Nat.div_le_self n 4
    exact not_lt.mpr (by exact_mod_cast hle)
  rw [if_neg h2]
  rw [downSampleLoop_nil]
  rfl

theorem filterMap_find_nil (order : List Nat) :
    order.filterMap (fun sid => ([] : List (Nat × Nat)).find? (fun kc => kc.1 == sid)) = [] := by
  induction order with
  | nil => rfl
  | cons a t ih =>
    rw [List.filterMap_cons]
    simp only [List.find?_nil]
    exact ih

theorem findMatchesUFP_nil (getCouples : List Nat → List (Nat × List Couple))
    (table : List (Nat × SongRec)) (order : List Nat) (h : getCouples [] = []) :
    FindMatchesUsingFingerPrints [] getCouples table order = [] := by
  show sortMatches (candidatesOf (analyzeRelativeTiming (collectHits []
      (getCouples (([] : List (Nat × Nat)).map (fun kv => kv.1)))))
    (collectTimestamps (getCouples (([] : List (Nat × Nat)).map (fun kv => kv.1)))) table order) = []
  rw [show (([] : List (Nat × Nat)).map (fun kv => kv.1)) = [] from rfl, h]
  show sortMatches (candidatesOf [] [] table order) = []
  unfold candidatesOf
  rw [filterMap_find_nil]
  rfl

theorem sortMatches_perm_of_perm {l1 l2 : List Match} (h : l1.Perm l2) :
    (sortMatches l1).Perm (sortMatches l2) :=
  ((sortMatches_perm l1).trans h).trans (sortMatches_perm l2).symm

theorem pack_or (a t d : Nat) (ht : t < 2 ^ 9) (hd : d < 2 ^ 14) :
    a <<< 23 ||| t <<< 14 ||| d = a * 2 ^ 23 + t * 2 ^ 14 + d := by
  rw [Nat.shiftLeft_eq, Nat.shiftLeft_eq]
  have h1 : t * 2 ^ 14 < 2 ^ 23 := by
    calc t * 2 ^ 14 < 2 ^ 9 * 2 ^ 14 :=
          (Nat.mul_lt_mul_right (by norm_num : 0 < 2 ^ 14)).mpr ht
    _ = 2 ^ 23 := by norm_num
  calc a * 2 ^ 23 ||| t * 2 ^ 14 ||| d
      = (2 ^ 23 * a ||| t * 2 ^ 14) ||| d := by rw [Nat.mul_comm]
    _ = (2 ^ 23 * a + t * 2 ^ 14) ||| d := by rw [← Nat.mul_add_lt_is_or h1]
    _ = (2 ^ 14 * (2 ^ 9 * a + t)) ||| d := by
        congr 1
        ring
    _ = 2 ^ 14 * (2 ^ 9 * a + t) + d := by rw [← Nat.mul_add_lt_is_or hd]
    _ = a * 2 ^ 23 + t * 2 ^ 14 + d := by ring

/-! ### The claims -/

/-- C1 (counterexample): the claim says the builder emits
`floor((len - 1024)/512) + 1` frames when `len ≥ 1024` and none otherwise, so
a 992-sample decimated signal should yield 0 frames; the code's framing
(`numOfWindows = len / (freqBinSize - hopSize) = len / 992`, hop 32) emits 1
frame for it. -/
theorem C1_counterexample :
    (stftFrames (List.replicate 992 (0 : ℚ))).length = 1 ∧ specFrameCount 992 = 0 := by
  constructor
  · simp only [stftFrames, List.length_map, List.length_range, List.length_replicate]
    decide
  · decide

/-- C1 (amended): for every decimated signal the builder emits exactly
`len / 992` frames (`numOfWindows = len / (freqBinSize - hopSize)` with
`FFT_N = 1024` and `HOP = 32`, not 512); frame `i` starts at `i * 32`, holds
the available samples `[32·i, 32·i + 1024)` zero-padded at the tail, and every
emitted frame is exactly 1024 samples long. -/
theorem C1_amended_framing (xs : List ℚ) (i : Nat) (h : i < numOfWindows xs.length) :
    (stftFrames xs).length = numOfWindows xs.length ∧
    (stftFrames xs)[i]? = some (stftFrame xs i) ∧
    (stftFrame xs i).length = freqBinSize := by
  refine ⟨?_, ?_, ?_⟩
  · simp [stftFrames]
  · simp only [stftFrames]
    rw [List.getElem?_map, List.getElem?_range h]
    rfl
  · unfold stftFrame
    have hc : ((xs.drop (i * hopSize)).take freqBinSize).length ≤ freqBinSize := by
      simp [List.length_take]
    simp only [List.length_append, List.length_replicate]
    omega

theorem C1_amended_framing_witness :
    0 < numOfWindows (List.replicate 992 (0 : ℚ)).length ∧
    ((stftFrames (List.replicate 992 (0 : ℚ))).length =
        numOfWindows (List.replicate 992 (0 : ℚ)).length ∧
      (stftFrames (List.replicate 992 (0 : ℚ)))[0]? =
        some (stftFrame (List.replicate 992 (0 : ℚ)) 0) ∧
      (stftFrame (List.replicate 992 (0 : ℚ)) 0).length = freqBinSize) :=
  ⟨by decide, C1_amended_framing (List.replicate 992 (0 : ℚ)) 0 (by decide)⟩

/-- C2: for every song, the matcher's `analyzeRelativeTiming` score is the
population of the most popular 100 ms bin of the `db_t − query_t` histogram —
the size of the largest equivalence class of its hit pairs under the key
`(int32(db_t) - int32(query_t)) / 100` in Go's truncating signed division. -/
theorem C2_score_most_popular_bin (songHits : List (Nat × List (Nat × Nat))) :
    analyzeRelativeTiming songHits =
      songHits.map (fun sl => (sl.1, largestClassSize sl.2)) := by
  unfold analyzeRelativeTiming
  apply List.map_congr_left
  intro sl _
  rw [songScore_eq_largestClassSize]

/-- C3 (counterexample): with two songs of equal score and the `scores` map
iterated as `[2, 1]` — a legitimate iteration order, being a permutation of
the key set — the matcher returns song 2 before song 1, violating the claimed
ascending-song-id tie break. -/
theorem C3_counterexample :
    [2, 1].Perm (scoreKeys exSampleMap exGetCouples) ∧
    ¬ specSortedC3 (FindMatchesUsingFingerPrints exSampleMap exGetCouples exTable [2, 1]) := by
  constructor
  · decide
  · intro hs
    have hout : FindMatchesUsingFingerPrints exSampleMap exGetCouples exTable [2, 1] =
        [⟨2, "B", "bb", "y2", 60, 1⟩, ⟨1, "A", "aa", "y1", 50, 1⟩] := by decide
    rw [specSortedC3, hout] at hs
    rcases List.pairwise_cons.mp hs with ⟨hrel, _⟩
    have hh := hrel _ (List.mem_cons_self _ _)
    rcases hh with hlt | heq
    · exact absurd hlt (by decide)
    · exact absurd heq.2 (by decide)

/-- C3 (amended): the matcher's output is sorted by non-increasing score (the
`sort.Slice` comparator compares scores only); no song-id tie break is
applied, so the relative order of equal-score matches follows the
nondeterministic iteration order of the `scores` map. -/
theorem C3_amended_sorted (sampleMap : List (Nat × Nat))
    (getCouples : List Nat → List (Nat × List Couple))
    (table : List (Nat × SongRec)) (order : List Nat) :
    (FindMatchesUsingFingerPrints sampleMap getCouples table order).Pairwise
      (fun a b => b.score ≤ a.score) :=
  sortMatches_sorted _

/-- C4 (counterexample): two runs over identical store contents and an
identical query that differ only in the iteration order of the `scores` map —
both orders being permutations of the key set — produce different ordered
outputs, so the matcher's output ordering is not deterministic. -/
theorem C4_counterexample :
    [1, 2].Perm (scoreKeys exSampleMap exGetCouples) ∧
    [2, 1].Perm (scoreKeys exSampleMap exGetCouples) ∧
    FindMatchesUsingFingerPrints exSampleMap exGetCouples exTable [1, 2] ≠
      FindMatchesUsingFingerPrints exSampleMap exGetCouples exTable [2, 1] := by
  refine ⟨by decide, by decide, ?_⟩
  decide

/-- C4 (amended): for a fixed store and query, any two runs (any two iteration
orders of the `scores` map that are permutations of each other) produce
outputs that are permutations of each other with identical descending score
sequences; only the relative order of equal-score matches may differ. -/
theorem C4_amended_determinism (sampleMap : List (Nat × Nat))
    (getCouples : List Nat → List (Nat × List Couple))
    (table : List (Nat × SongRec)) (o1 o2 : List Nat) (h : o1.Perm o2) :
    (FindMatchesUsingFingerPrints sampleMap getCouples table o1).Perm
      (FindMatchesUsingFingerPrints sampleMap getCouples table o2) ∧
    (FindMatchesUsingFingerPrints sampleMap getCouples table o1).map (fun mt => mt.score) =
      (FindMatchesUsingFingerPrints sampleMap getCouples table o2).map (fun mt => mt.score) := by
  have hc : (candidatesOf (analyzeRelativeTiming (collectHits sampleMap
        (getCouples (sampleMap.map (fun kv => kv.1)))))
      (collectTimestamps (getCouples (sampleMap.map (fun kv => kv.1)))) table o1).Perm
      (candidatesOf (analyzeRelativeTiming (collectHits sampleMap
        (getCouples (sampleMap.map (fun kv => kv.1)))))
      (collectTimestamps (getCouples (sampleMap.map (fun kv => kv.1)))) table o2) := by
    unfold candidatesOf
    exact (h.filterMap _).filterMap _
  have hperm : (FindMatchesUsingFingerPrints sampleMap getCouples table o1).Perm
      (FindMatchesUsingFingerPrints sampleMap getCouples table o2) :=
    sortMatches_perm_of_perm hc
  refine ⟨hperm, ?_⟩
  exact scores_eq_of_perm_sorted hperm (sortMatches_sorted _) (sortMatches_sorted _)

theorem C4_amended_determinism_witness :
    ([1, 2] : List Nat).Perm [2, 1] ∧
    ((FindMatchesUsingFingerPrints exSampleMap exGetCouples exTable [1, 2]).Perm
        (FindMatchesUsingFingerPrints exSampleMap exGetCouples exTable [2, 1]) ∧
      (FindMatchesUsingFingerPrints exSampleMap exGetCouples exTable [1, 2]).map
          (fun mt => mt.score) =
        (FindMatchesUsingFingerPrints exSampleMap exGetCouples exTable [2, 1]).map
          (fun mt => mt.score)) :=
  ⟨by decide, C4_amended_determinism exSampleMap exGetCouples exTable [1, 2] [2, 1] (by decide)⟩

/-- C5 (counterexample): the claim fixes the target zone at `Z = 5`, but the
core hasher (`core/fingerprinting.go`, `targetZoneSize = 20`) pairs anchor 0
with target 6 in a 7-peak list, a pair the claimed `Z = 5` enumeration
forbids. -/
theorem C5_counterexample : (0, 6) ∈ hashedPairs 7 ∧ (0, 6) ∉ specPairsZ5 7 := by
  decide

/-- C5 (amended): the core hasher pairs each anchor `i` with exactly the
targets `j ∈ (i, min(i + Z, len − 1)]` where `Z = targetZoneSize = 20` (the
separate `main/pipeline` draft uses 5). -/
theorem C5_amended_target_zone (n i j : Nat) :
    (i, j) ∈ hashedPairs n ↔ i + 1 ≤ j ∧ j ≤ i + targetZoneSize ∧ j < n := by
  unfold hashedPairs
  rw [List.mem_flatMap]
  constructor
  · rintro ⟨a, _, hmem⟩
    rw [List.mem_map] at hmem
    obtain ⟨b, hb, heq⟩ := hmem
    rw [List.mem_filter] at hb
    obtain ⟨hbr, hcond⟩ := hb
    rw [List.mem_range] at hbr
    injection heq with h1 h2
    subst h1
    subst h2
    simp only [Bool.and_eq_true, decide_eq_true_eq] at hcond
    exact ⟨hcond.1, hcond.2, hbr⟩
  · rintro ⟨h1, h2, h3⟩
    refine ⟨i, ?_, ?_⟩
    · rw [List.mem_range]; omega
    · rw [List.mem_map]
      refine ⟨j, ?_, rfl⟩
      rw [List.mem_filter, List.mem_range]
      refine ⟨h3, ?_⟩
      simp only [Bool.and_eq_true, decide_eq_true_eq]
      exact ⟨h1, h2⟩

/-- C6: the decimator's inner sum runs from index 0 instead of from the group
start, so each output averages a prefix of the whole signal over the group
length.  On `sample = [2,0,0,0]` with rates 4→2 the code returns `[1, 1]`
while the documented per-group mean is `[1, 0]`. -/
theorem C6_downsample_prefix_bug :
    DownSample [2, 0, 0, 0] 4 2 = Except.ok [1, 1] ∧
    specDownSample [2, 0, 0, 0] 2 = [1, 0] ∧
    ([1, 1] : List ℚ) ≠ [1, 0] := by
  refine ⟨by rfl, by rfl, by decide⟩

/-- C7 (counterexample): on a frame whose only live band maximum is 4 (all
other bands silent), the code averages over all six band maxima (μ = 2/3) and
emits that maximum, while the claimed discard-then-average rule yields μ = 4
over the single survivor and emits nothing. -/
theorem C7_counterexample :
    framePeaks exBin = [⟨4, 0⟩] ∧ specFramePeaks exBin = [] := by
  exact ⟨framePeaks_exBin, specFramePeaks_exBin⟩

/-- C7 (amended): the peak picker does not discard silent bands: μ is the mean
of all six band maxima (silent bands contributing 0), a band maximum is
emitted exactly when its magnitude strictly exceeds that μ, and every emitted
peak has strictly positive magnitude (a silent band can never be emitted
because its 0 cannot exceed the nonnegative mean). -/
theorem C7_amended_no_discard (bin : List ℚ) (v : BandMax) (h : v ∈ binBandMax bin) :
    (v ∈ framePeaks bin ↔ frameAvg bin < v.mag) ∧
    0 ≤ v.mag ∧
    (v ∈ framePeaks bin → 0 < v.mag) := by
  have hnn : 0 ≤ v.mag := by
    obtain ⟨b, _, rfl⟩ := List.mem_map.mp h
    exact scanBand_mag_nonneg _
  refine ⟨?_, hnn, ?_⟩
  · unfold framePeaks
    rw [List.mem_filter]
    constructor
    · intro hm
      exact of_decide_eq_true hm.2
    · intro hm
      exact ⟨h, decide_eq_true hm⟩
  · intro hm
    unfold framePeaks at hm
    rw [List.mem_filter] at hm
    have hlt : frameAvg bin < v.mag := of_decide_eq_true hm.2
    exact lt_of_le_of_lt (frameAvg_nonneg bin) hlt

theorem C7_amended_no_discard_witness :
    (⟨4, 0⟩ : BandMax) ∈ binBandMax exBin ∧
    (((⟨4, 0⟩ : BandMax) ∈ framePeaks exBin ↔ frameAvg exBin < (⟨4, 0⟩ : BandMax).mag) ∧
      0 ≤ (⟨4, 0⟩ : BandMax).mag ∧
      ((⟨4, 0⟩ : BandMax) ∈ framePeaks exBin → 0 < (⟨4, 0⟩ : BandMax).mag)) :=
  ⟨by rw [binBandMax_exBin]; decide,
    C7_amended_no_discard exBin ⟨4, 0⟩ (by rw [binBandMax_exBin]; decide)⟩

/-- C8: the 32-bit landmark address round-trips: bits 31..23 are
`floor(anchor.freq/10) mod 2^9`, bits 22..14 are `floor(target.freq/10) mod
2^9`, and bits 13..0 are `floor((target.time − anchor.time)·1000) mod 2^14`;
the hypotheses keep the Go float→uint32 conversions on nonnegative inputs,
where they are defined. -/
theorem C8_address_roundtrip (anchor target : Peak) (ha : 0 ≤ anchor.freq)
    (ht : 0 ≤ target.freq) (hd : anchor.time ≤ target.time) :
    createAddress anchor target / 2 ^ 23 = (Rat.floor (anchor.freq / 10)).toNat % 2 ^ 9 ∧
    createAddress anchor target / 2 ^ 14 % 2 ^ 9 =
      (Rat.floor (target.freq / 10)).toNat % 2 ^ 9 ∧
    createAddress anchor target % 2 ^ 14 =
      (Rat.floor ((target.time - anchor.time) * 1000)).toNat % 2 ^ 14 := by
  have hA9 : (Rat.floor (anchor.freq / 10)).toNat % 2 ^ 32 % 2 ^ 9 =
      (Rat.floor (anchor.freq / 10)).toNat % 2 ^ 9 :=
    Nat.mod_mod_of_dvd _ (by norm_num)
  have hT9 : (Rat.floor (target.freq / 10)).toNat % 2 ^ 32 % 2 ^ 9 =
      (Rat.floor (target.freq / 10)).toNat % 2 ^ 9 :=
    Nat.mod_mod_of_dvd _ (by norm_num)
  have hD14 : (Rat.floor ((target.time - anchor.time) * 1000)).toNat % 2 ^ 32 % 2 ^ 14 =
      (Rat.floor ((target.time - anchor.time) * 1000)).toNat % 2 ^ 14 :=
    Nat.mod_mod_of_dvd _ (by norm_num)
  have hw : createAddress anchor target =
      (Rat.floor (anchor.freq / 10)).toNat % 2 ^ 9 * 2 ^ 23 +
      (Rat.floor (target.freq / 10)).toNat % 2 ^ 9 * 2 ^ 14 +
      (Rat.floor ((target.time - anchor.time) * 1000)).toNat % 2 ^ 14 := by
    simp only [createAddress, u32ofRat, maxFreqBits, maxDeltaBits]
    rw [hA9, hT9, hD14]
    exact pack_or _ _ _ (Nat.mod_lt _ (by norm_num)) (Nat.mod_lt _ (by norm_num))
  rw [hw]
  have ha9 : (Rat.floor (anchor.freq / 10)).toNat % 2 ^ 9 < 2 ^ 9 :=
    Nat.mod_lt _ (by norm_num)
  have ht9 : (Rat.floor (target.freq / 10)).toNat % 2 ^ 9 < 2 ^ 9 :=
    Nat.mod_lt _ (by norm_num)
  have hd14 : (Rat.floor ((target.time - anchor.time) * 1000)).toNat % 2 ^ 14 < 2 ^ 14 :=
    Nat.mod_lt _ (by norm_num)
  refine ⟨?_, ?_, ?_⟩
  · omega
  · omega
  · omega

theorem C8_address_roundtrip_witness :
    0 ≤ (⟨1, 1000⟩ : Peak).freq ∧ 0 ≤ (⟨2, 1500⟩ : Peak).freq ∧
    (⟨1, 1000⟩ : Peak).time ≤ (⟨2, 1500⟩ : Peak).time ∧
    (createAddress ⟨1, 1000⟩ ⟨2, 1500⟩ / 2 ^ 23 =
        (Rat.floor ((⟨1, 1000⟩ : Peak).freq / 10)).toNat % 2 ^ 9 ∧
      createAddress ⟨1, 1000⟩ ⟨2, 1500⟩ / 2 ^ 14 % 2 ^ 9 =
        (Rat.floor ((⟨2, 1500⟩ : Peak).freq / 10)).toNat % 2 ^ 9 ∧
      createAddress ⟨1, 1000⟩ ⟨2, 1500⟩ % 2 ^ 14 =
        (Rat.floor (((⟨2, 1500⟩ : Peak).time - (⟨1, 1000⟩ : Peak).time) * 1000)).toNat % 2 ^ 14) :=
  ⟨by decide, by decide, by decide,
    C8_address_roundtrip ⟨1, 1000⟩ ⟨2, 1500⟩ (by decide) (by decide) (by decide)⟩

/-- C9 (counterexample): on an empty sample vector, `FindMatches` does not
abort with an invalid-input error: it runs the whole pipeline on the empty
signal and returns a normal, empty match list. -/
theorem C9_counterexample :
    FindMatches (fun l => l) 1 [] 1 44100 (fun _ => []) [] [] = Except.ok [] := by
  have hs : Spectrogram (fun l : List ℚ => l) 1 [] 44100 = Except.ok [] :=
    spectrogram_empty _ 1 44100 (by norm_num)
  unfold FindMatches
  rw [hs]
  have hfp : FindMatchesUsingFingerPrints
      ((Fingerprint (ExtractPeaks [] 1) 0).map (fun kv => (kv.1, kv.2.anchorTime)))
      (fun _ => []) [] [] = [] := by decide
  simpa using hfp

/-- C9 (amended): of the two entry points, only fingerprint computation
validates its input: `GenerateFingerprintsFromSamples` rejects an empty sample
vector with an invalid-input error, while `FindMatches` performs no validation
and returns a normal (empty) result on the same input whenever the store
returns nothing for an empty address list. -/
theorem C9_amended_empty_input (fftMag : List ℚ → List ℚ) (alpha audioDuration : ℚ)
    (rate : Int) (getCouples : List Nat → List (Nat × List Couple))
    (table : List (Nat × SongRec)) (order : List Nat) (songID : Nat)
    (hrate : 4 ≤ rate) (hgc : getCouples [] = []) :
    GenerateFingerprintsFromSamples fftMag alpha [] rate songID =
      Except.error "samples slice is empty" ∧
    FindMatches fftMag alpha [] audioDuration rate getCouples table order =
      Except.ok [] := by
  refine ⟨rfl, ?_⟩
  unfold FindMatches
  rw [spectrogram_empty fftMag alpha rate hrate]
  have hpeaks : ExtractPeaks [] audioDuration = [] := rfl
  show Except.ok (FindMatchesUsingFingerPrints
      ((Fingerprint (ExtractPeaks [] audioDuration) 0).map (fun kv => (kv.1, kv.2.anchorTime)))
      getCouples table order) = Except.ok []
  rw [hpeaks]
  have hfp : Fingerprint [] 0 = [] := rfl
  rw [hfp, List.map_nil]
  rw [findMatchesUFP_nil getCouples table order hgc]

theorem C9_amended_empty_input_witness :
    (4 : Int) ≤ 44100 ∧ (fun _ : List Nat => ([] : List (Nat × List Couple))) [] = [] ∧
    (GenerateFingerprintsFromSamples (fun l => l) 1 [] 44100 7 =
        Except.error "samples slice is empty" ∧
      FindMatches (fun l => l) 1 [] 2 44100 (fun _ => []) [] [] = Except.ok []) :=
  ⟨by norm_num, rfl,
    C9_amended_empty_input (fun l => l) 1 2 44100 (fun _ => []) [] [] 7
      (by norm_num) rfl⟩

/-- C10: the peak picker's bands index every frame up to bin 512 exclusive;
`ExtractPeaksChecked` (the band slicing with Go's bound check made explicit)
succeeds and agrees with the unchecked extraction exactly when every frame has
at least 512 bins, and fails exactly when some frame is shorter. -/
theorem C10_slice_bounds (spectrogram : List (List ℚ)) (audioDuration : ℚ) :
    (ExtractPeaksChecked spectrogram audioDuration =
        some (ExtractPeaks spectrogram audioDuration) ↔
      ∀ bin ∈ spectrogram, 512 ≤ bin.length) ∧
    (ExtractPeaksChecked spectrogram audioDuration = none ↔
      ∃ bin ∈ spectrogram, bin.length < 512) := by
  have hbands : ∀ b ∈ bands, b.2 ≤ 512 := by decide
  unfold ExtractPeaksChecked
  by_cases h : ∀ bin ∈ spectrogram, 512 ≤ bin.length
  · have hb : spectrogram.all (fun bin => bands.all (fun b => decide (b.2 ≤ bin.length))) = true := by
      rw [List.all_eq_true]
      intro bin hbin
      rw [List.all_eq_true]
      intro b hbmem
      exact decide_eq_true (le_trans (hbands b hbmem) (h bin hbin))
    rw [if_pos hb]
    constructor
    · exact ⟨fun _ => h, fun _ => rfl⟩
    · constructor
      · intro hs; exact absurd hs (by simp)
      · rintro ⟨bin, hbin, hlt⟩
        exact absurd (h bin hbin) (by omega)
  · have hb : ¬ spectrogram.all (fun bin => bands.all (fun b => decide (b.2 ≤ bin.length))) = true := by
      intro hall
      apply h
      intro bin hbin
      have h1 := (List.all_eq_true.mp hall) bin hbin
      have h2 := (List.all_eq_true.mp h1) (160, 512) (by decide)
      exact of_decide_eq_true h2
    rw [if_neg hb]
    push_neg at h
    obtain ⟨bin, hbin, hlt⟩ := h
    constructor
    · constructor
      · intro hs; exact Option.noConfusion hs
      · intro hall; exact absurd (hall bin hbin) (by omega)
    · exact ⟨fun _ => ⟨bin, hbin, by omega⟩, fun _ => rfl⟩

end Shz
